import Mathlib

/-!
Shallow embedding of the `transportation` single-threaded event reactor
(`src/reactor.rs`).  Instants and durations are natural numbers (abstract
time units); `mio` tokens are naturals; callbacks are deep-embedded as
lists of reactor operations so that reentrant mutation of the reactor
from inside a callback is expressible.  The external I/O multiplexer is
modelled by an environment trace: one `EnvIn` per loop iteration records
how much time elapsed inside `poll` and the batch of ready tokens it
returned.
-/

/-- Trace events: invocation of a timer entry (recording its `fire_at`),
dispatch of an I/O readiness event to a listener (recording its token),
and the observable `tag` markers that embedded callbacks may emit. -/
inductive TEv where
  | timer (fire_at : Nat)
  | io (token : Nat)
  | tag (n : Nat)
deriving DecidableEq

/-- Deep-embedded callback operations: the reactor API calls a callback
body may perform, plus the observable `tag` marker.  Interval handles are
arena indices into `interval_flags` (the per-handle shared
`Rc<RefCell<bool>>` cells of the source, made addressable). -/
inductive Op where
  | quit
  | set_event_listener (token : Nat) (prog : List Op)
  | remove_event_listener (token : Nat)
  | set_timeout (dur : Nat) (prog : List Op)
  | set_interval (dur : Nat) (prog : List Op)
  | cancel (hid : Nat)
  | tag (n : Nat)

/-- A timer entry's boxed callback: either a user `FnOnce` closure, or the
wrapping closure built by `reschedule_interval` (which checks the handle's
cancellation flag, reschedules, then invokes the user callback). -/
inductive TimerCb where
  | user (prog : List Op)
  | interval (dur : Nat) (hid : Nat) (prog : List Op)

/-- `ReactorInternal`: quit flag, token counter, listener map (association
list standing for the `BTreeMap`), timer list, plus the arena of interval
cancellation flags (`interval_flags`, fresh ids from `hid_ticker`), the
current instant `now`, and the observation trace. -/
structure ReactorState where
  quit : Bool
  token_ticker : Nat
  event_listeners : List (Nat × List Op)
  timeout_listeners : List (Nat × TimerCb)
  interval_flags : List (Nat × Bool)
  hid_ticker : Nat
  now : Nat
  trace : List TEv

/-- Association-list lookup (`BTreeMap::get`). -/
def lookupL {α : Type} (k : Nat) : List (Nat × α) → Option α
  | [] => none
  | (k', v) :: rest => if k' = k then some v else lookupL k rest

/-- Association-list insert-or-replace (`BTreeMap::insert`). -/
def insertL {α : Type} (k : Nat) (v : α) : List (Nat × α) → List (Nat × α)
  | [] => [(k, v)]
  | (k', v') :: rest => if k' = k then (k, v) :: rest else (k', v') :: insertL k v rest

/-- Association-list removal (`BTreeMap::remove`). -/
def removeL {α : Type} (k : Nat) : List (Nat × α) → List (Nat × α)
  | [] => []
  | (k', v') :: rest => if k' = k then rest else (k', v') :: removeL k rest

/-- The value range bound of the token counter (`usize::MAX`). -/
def USIZE_MAX : Nat := 2 ^ 64 - 1

/-- `Reactor::new`, at current instant `now0`: quit unset, token counter 0,
empty listener map, empty timer list. -/
def reactor_new (now0 : Nat) : ReactorState :=
  ⟨false, 0, [], [], [], 0, now0, []⟩

/-- `Reactor::quit`: set the quit flag. -/
def quit (s : ReactorState) : ReactorState := {s with quit := true}

/-- `Reactor::set_event_listener`: insert or replace the callback for the
token. -/
def set_event_listener (token : Nat) (prog : List Op) (s : ReactorState) : ReactorState :=
  {s with event_listeners := insertL token prog s.event_listeners}

/-- `Reactor::remove_event_listener`. -/
def remove_event_listener (token : Nat) (s : ReactorState) : ReactorState :=
  {s with event_listeners := removeL token s.event_listeners}

/-- `Reactor::set_timeout`: `run_at = Instant::now() + timeout`, pushed at
the end of the timer list. -/
def set_timeout (timeout : Nat) (cb : TimerCb) (s : ReactorState) : ReactorState :=
  {s with timeout_listeners := s.timeout_listeners ++ [(s.now + timeout, cb)]}

/-- `Reactor::reschedule_interval`: register the wrapping one-shot timeout
for the interval. -/
def reschedule_interval (interval : Nat) (hid : Nat) (prog : List Op) (s : ReactorState) : ReactorState :=
  set_timeout interval (TimerCb.interval interval hid prog) s

/-- `Reactor::set_interval`: allocate a handle with an unset cancellation
flag, then schedule the first occurrence via the wrapping timeout. -/
def set_interval (interval : Nat) (prog : List Op) (s : ReactorState) : ReactorState :=
  reschedule_interval interval s.hid_ticker prog
    {s with interval_flags := insertL s.hid_ticker false s.interval_flags,
            hid_ticker := s.hid_ticker + 1}

/-- `IntervalHandle::cancel`: set the shared flag. -/
def cancel (hid : Nat) (s : ReactorState) : ReactorState :=
  {s with interval_flags := insertL hid true s.interval_flags}

/-- `IntervalHandle::is_cancelled`: read the shared flag. -/
def is_cancelled (hid : Nat) (s : ReactorState) : Bool :=
  (lookupL hid s.interval_flags).getD false

/-- `Reactor::issue_token`; `none` models the fatal
`panic!("Out of tokens")` taken when the counter would overflow. -/
def issue_token (s : ReactorState) : Option (Nat × ReactorState) :=
  let mine := s.token_ticker
  if mine = USIZE_MAX then none
  else some (mine, {s with token_ticker := mine + 1})

/-- Iterate `issue_token`, collecting the issued tokens. -/
def issue_tokens : Nat → ReactorState → Option (List Nat × ReactorState)
  | 0, s => some ([], s)
  | n + 1, s =>
    match issue_token s with
    | none => none
    | some (t, s') =>
      match issue_tokens n s' with
      | none => none
      | some (ts, s'') => some (t :: ts, s'')

/-- One step of a deep-embedded callback body. -/
def execOp (s : ReactorState) : Op → ReactorState
  | .quit => quit s
  | .set_event_listener tok p => set_event_listener tok p s
  | .remove_event_listener tok => remove_event_listener tok s
  | .set_timeout d p => set_timeout d (TimerCb.user p) s
  | .set_interval d p => set_interval d p s
  | .cancel hid => cancel hid s
  | .tag n => {s with trace := s.trace ++ [TEv.tag n]}

/-- Run a whole callback body, left to right. -/
def execProg (p : List Op) (s : ReactorState) : ReactorState :=
  p.foldl execOp s

/-- Result of `Reactor::calculate_duration`. -/
structure CalculateDurationResult where
  duration : Option Nat
  fire_at : Option Nat
  idx : Nat
deriving DecidableEq

/-- Clamped non-negative wait from `now` until `fa`: the source's
`if timeout.0 > now { duration_since } else { 0 }`. -/
def clampDur (now fa : Nat) : Nat := if now < fa then fa - now else 0

/-- The linear scan inside `calculate_duration`: keep the first entry
whose clamped candidate duration is strictly below the running minimum. -/
def calc_loop (now : Nat) : List (Nat × TimerCb) → Nat → CalculateDurationResult → CalculateDurationResult
  | [], _, acc => acc
  | (fa, _) :: rest, cidx, acc =>
    let candidate := clampDur now fa
    match acc.duration with
    | none => calc_loop now rest (cidx + 1) ⟨some candidate, some fa, cidx⟩
    | some d =>
      if candidate < d then calc_loop now rest (cidx + 1) ⟨some candidate, some fa, cidx⟩
      else calc_loop now rest (cidx + 1) acc

/-- `Reactor::calculate_duration`. -/
def calculate_duration (s : ReactorState) : CalculateDurationResult :=
  calc_loop s.now s.timeout_listeners 0 ⟨none, none, 0⟩

/-- Invoke a fired timer entry's boxed callback.  For an interval's
wrapping closure: check the flag; if unset, reschedule first, then run the
user callback; if set, do nothing further. -/
def runTimerCb (cb : TimerCb) (s : ReactorState) : ReactorState :=
  match cb with
  | .user p => execProg p s
  | .interval d hid p =>
    if is_cancelled hid s then s
    else execProg p (reschedule_interval d hid p s)

/-- `timeout_listeners.remove(idx)` followed by `callback()`; the `.timer`
trace event marks the wrapping callback's invocation. -/
def fireTimer (idx : Nat) (fa : Nat) (s : ReactorState) : ReactorState :=
  match s.timeout_listeners.get? idx with
  | none => s
  | some (_, cb) =>
    runTimerCb cb
      {s with timeout_listeners := s.timeout_listeners.eraseIdx idx,
              trace := s.trace ++ [TEv.timer fa]}

/-- Dispatch one ready-batch in multiplexer order: look the listener up at
dispatch time, skip silently when absent, and stop after any invocation
that set the quit flag. -/
def dispatchBatch : List Nat → ReactorState → ReactorState
  | [], s => s
  | tok :: rest, s =>
    match lookupL tok s.event_listeners with
    | some p =>
      let s' := execProg p {s with trace := s.trace ++ [TEv.io tok]}
      if s'.quit then s' else dispatchBatch rest s'
    | none => dispatchBatch rest s

/-- What `poll` produced in one loop iteration: how much time elapsed
while blocked, and the ready tokens it reported. -/
structure EnvIn where
  elapsed : Nat
  batch : List Nat

/-- The timer-expiry half of one loop iteration: re-check that the
previously nearest timer has actually elapsed before firing it. -/
def timerPhase (r : CalculateDurationResult) (s : ReactorState) : ReactorState :=
  match r.fire_at with
  | some fa => if fa ≤ s.now then fireTimer r.idx fa s else s
  | none => s

/-- One iteration of the while-body of `run_internal`, driven by what
`poll` returned; when the timer callback set the quit flag the ready
batch is not dispatched (the source's `break`). -/
def oneIter (e : EnvIn) (s : ReactorState) : ReactorState :=
  let r := calculate_duration s
  let s1 := {s with now := s.now + e.elapsed}
  let s2 := timerPhase r s1
  if s2.quit then s2 else dispatchBatch e.batch s2

/-- `Reactor::is_empty`. -/
def is_empty (s : ReactorState) : Bool :=
  s.timeout_listeners.isEmpty && s.event_listeners.isEmpty

/-- `Reactor::run_internal`: one environment entry per iteration (the
environment trace doubles as fuel; an exhausted trace suspends the loop). -/
def run_internal : List EnvIn → ReactorState → ReactorState
  | [], s => s
  | e :: rest, s =>
    if s.quit || is_empty s then s
    else run_internal rest (oneIter e s)

/-- Modelled from the spec: the context-passing `run(initializer)` entry
point, the spec's canonical variant.  Under `src/` only the shared-handle
`Reactor::run(&self)` exists; the initializer-taking variant appears only
as the example's caller.  Per the spec it constructs the reactor, invokes
the initializer once with mutable access, then runs the loop. -/
def run (init : List Op) (envs : List EnvIn) (now0 : Nat) : ReactorState :=
  run_internal envs (execProg init (reactor_new now0))

/-- The `fire_at` values of the timer invocations recorded in a trace. -/
def timerFireAts : List TEv → List Nat
  | [] => []
  | TEv.timer fa :: rest => fa :: timerFireAts rest
  | _ :: rest => timerFireAts rest

/-- A timely environment for a state: `poll` always sleeps exactly the
requested wait and reports no I/O readiness (pure timer workload with an
accurate clock). -/
def timely : List EnvIn → ReactorState → Bool
  | [], _ => true
  | e :: rest, s =>
    if s.quit || is_empty s then true
    else
      e.batch.isEmpty && (e.elapsed == (calculate_duration s).duration.getD 0)
        && timely rest (oneIter e s)

/-- A callback body that only emits observation tags. -/
def inertProg : List Op → Bool
  | [] => true
  | Op.tag _ :: rest => inertProg rest
  | _ => false

/-- A timer callback that only emits observation tags. -/
def inertCb : TimerCb → Bool
  | TimerCb.user p => inertProg p
  | TimerCb.interval _ _ _ => false

/-- All timer callbacks of the state are inert. -/
def inertTimers (s : ReactorState) : Bool :=
  s.timeout_listeners.all fun x => inertCb x.2

/-- Number of timer invocations recorded in a trace. -/
def timersIn (l : List TEv) : Nat := (timerFireAts l).length

/-- Does this timer callback belong to the interval with handle `hid`? -/
def isIntervalOf (hid : Nat) : TimerCb → Bool
  | TimerCb.interval _ h _ => h == hid
  | TimerCb.user _ => false

/-- Number of queued timer entries belonging to interval `hid`. -/
def countHid (hid : Nat) (l : List (Nat × TimerCb)) : Nat :=
  (l.filter fun x => isIntervalOf hid x.2).length

/-! ## Basic lemmas about the association-list operations -/

theorem token_ticker_update (s : ReactorState) (x : Nat) :
    ({s with token_ticker := x} : ReactorState).token_ticker = x := rfl

theorem lookupL_insertL_self {α : Type} (k : Nat) (v : α) (l : List (Nat × α)) :
    lookupL k (insertL k v l) = some v := by
  induction l with
  | nil => simp [insertL, lookupL]
  | cons hd tl ih =>
    obtain ⟨k', v'⟩ := hd
    by_cases h : k' = k
    · simp [insertL, lookupL, h]
    · simp [insertL, lookupL, h, ih]

theorem insertL_insertL_self {α : Type} (k : Nat) (v : α) (l : List (Nat × α)) :
    insertL k v (insertL k v l) = insertL k v l := by
  induction l with
  | nil => simp [insertL]
  | cons hd tl ih =>
    obtain ⟨k', v'⟩ := hd
    by_cases h : k' = k
    · simp [insertL, h]
    · simp [insertL, h, ih]

theorem lookupL_insertL_ne {α : Type} (k k' : Nat) (v : α) (l : List (Nat × α))
    (h : k' ≠ k) : lookupL k (insertL k' v l) = lookupL k l := by
  induction l with
  | nil => simp [insertL, lookupL, h]
  | cons hd tl ih =>
    obtain ⟨k'', v''⟩ := hd
    by_cases h2 : k'' = k'
    · subst h2
      simp [insertL, lookupL, h]
    · by_cases h3 : k'' = k <;> simp [insertL, lookupL, h2, h3, ih, Ne.symm h]

/-! ## C9: interval cancellation is idempotent -/

/-- C9: `IntervalHandle::cancel` sets the shared cancellation flag — after
it, `is_cancelled` reads true — and it is idempotent: a second `cancel`
leaves the whole reactor state identical to the state after the first. -/
theorem C9_cancel_idempotent (s : ReactorState) (hid : Nat) :
    is_cancelled hid (cancel hid s) = true ∧
    cancel hid (cancel hid s) = cancel hid s := by
  constructor
  · simp [is_cancelled, cancel, lookupL_insertL_self]
  · simp [cancel, insertL_insertL_self]

/-! ## C5: idle shutdown -/

/-- C5: whenever, at the start of a run-loop iteration, both the listener
registry and the timer list are empty, the loop stops at once and performs
no further polling or dispatch, even though the quit flag may be unset. -/
theorem C5_idle_shutdown (envs : List EnvIn) (s : ReactorState)
    (hl : s.event_listeners = []) (ht : s.timeout_listeners = []) :
    run_internal envs s = s := by
  cases envs with
  | nil => rfl
  | cons e rest => simp [run_internal, is_empty, hl, ht]

/-- Witness for C5 at a concrete fresh reactor and a nonempty environment. -/
theorem C5_idle_shutdown_witness :
    run_internal [⟨5, [3]⟩] (reactor_new 0) = reactor_new 0 :=
  C5_idle_shutdown [⟨5, [3]⟩] (reactor_new 0) rfl rfl

/-! ## C7: token allocation -/

theorem issue_tokens_ok (k : Nat) : ∀ s : ReactorState,
    s.token_ticker + k ≤ USIZE_MAX →
    issue_tokens k s =
      some (List.range' s.token_ticker k, {s with token_ticker := s.token_ticker + k}) := by
  induction k with
  | zero => intro s _; simp [issue_tokens]
  | succ n ih =>
    intro s h
    have hne : s.token_ticker ≠ USIZE_MAX := by omega
    have hrec := ih {s with token_ticker := s.token_ticker + 1}
      (by simp only [token_ticker_update]; omega)
    simp [issue_tokens, issue_token, hne, hrec, List.range'_succ]
    omega

theorem issue_tokens_exhaust (k : Nat) : ∀ s : ReactorState,
    s.token_ticker ≤ USIZE_MAX → USIZE_MAX < s.token_ticker + k →
    issue_tokens k s = none := by
  induction k with
  | zero => intro s h1 h2; omega
  | succ n ih =>
    intro s h1 h2
    by_cases hne : s.token_ticker = USIZE_MAX
    · simp [issue_tokens, issue_token, hne]
    · have := ih {s with token_ticker := s.token_ticker + 1}
        (by simp only [token_ticker_update]; omega)
        (by simp only [token_ticker_update]; omega)
      simp [issue_tokens, issue_token, hne, this]

theorem issue_tokens_shape (k : Nat) : ∀ (s : ReactorState) (ts : List Nat) (s' : ReactorState),
    issue_tokens k s = some (ts, s') →
    ts = List.range' s.token_ticker k ∧ s' = {s with token_ticker := s.token_ticker + k} := by
  induction k with
  | zero =>
    intro s ts s' h
    simp [issue_tokens] at h
    simp [h.1, h.2]
  | succ n ih =>
    intro s ts s' h
    by_cases hne : s.token_ticker = USIZE_MAX
    · simp [issue_tokens, issue_token, hne] at h
    · simp only [issue_tokens, issue_token, hne, if_false, ite_false] at h
      rcases hrec : issue_tokens n {s with token_ticker := s.token_ticker + 1} with _ | p
      · rw [hrec] at h; simp at h
      · obtain ⟨ts0, s0⟩ := p
        rw [hrec] at h
        simp at h
        obtain ⟨h1, h2⟩ := ih _ _ _ hrec
        refine ⟨?_, ?_⟩
        · rw [← h.1, h1]
          simp [List.range'_succ]
        · rw [← h.2, h2]
          congr 1
          simp only [token_ticker_update]
          omega

/-- C7: `issue_token` returns the current counter then increments it, so
repeated calls from a fresh reactor yield exactly 0, 1, 2, …, a strictly
increasing sequence; a call fails fatally (modelled as `none`) exactly
when the counter would overflow its value range (`usize::MAX`). -/
theorem C7_issue_token_spec (s : ReactorState) (k : Nat) :
    (issue_token s = none ↔ s.token_ticker = USIZE_MAX)
    ∧ (s.token_ticker + k ≤ USIZE_MAX →
        issue_tokens k s =
          some (List.range' s.token_ticker k, {s with token_ticker := s.token_ticker + k}))
    ∧ (s.token_ticker ≤ USIZE_MAX → USIZE_MAX < s.token_ticker + k →
        issue_tokens k s = none)
    ∧ (∀ ts s', issue_tokens k s = some (ts, s') → List.Pairwise (· < ·) ts) := by
  refine ⟨?_, issue_tokens_ok k s, issue_tokens_exhaust k s, ?_⟩
  · constructor
    · intro h
      by_contra hne
      simp [issue_token, hne] at h
    · intro h; simp [issue_token, h]
  · intro ts s' h
    obtain ⟨h1, _⟩ := issue_tokens_shape k s ts s' h
    rw [h1]
    exact List.pairwise_lt_range' _ _

/-- Witness for C7: three tokens from a fresh reactor are 0, 1, 2; a
reactor whose counter sits at the bound fails. -/
theorem C7_issue_token_spec_witness :
    issue_tokens 3 (reactor_new 0) =
      some (List.range' 0 3, {reactor_new 0 with token_ticker := 3})
    ∧ issue_tokens 1 {reactor_new 0 with token_ticker := USIZE_MAX} = none
    ∧ List.Pairwise (· < ·) (List.range' 0 3) := by
  refine ⟨(C7_issue_token_spec (reactor_new 0) 3).2.1 (by decide), ?_, ?_⟩
  · exact (C7_issue_token_spec {reactor_new 0 with token_ticker := USIZE_MAX} 1).2.2.1
      (show USIZE_MAX ≤ USIZE_MAX from le_refl _)
      (show USIZE_MAX < USIZE_MAX + 1 by omega)
  · have h3 : issue_tokens 3 (reactor_new 0) =
        some (List.range' 0 3, {reactor_new 0 with token_ticker := 3}) :=
      (C7_issue_token_spec (reactor_new 0) 3).2.1 (by decide)
    exact (C7_issue_token_spec (reactor_new 0) 3).2.2.2 _ _ h3

/-! ## C6: listeners are looked up at dispatch time -/

/-- C6: during dispatch of a ready batch the listener for each token is
looked up at the moment that event is dispatched; a token with no
registered listener is silently skipped, so removing token 2's listener
inside token 1's callback in the same batch prevents token 2's callback
(`tag 5`) from firing even though 2's event is in the batch. -/
theorem C6_dispatch_lookup_at_dispatch_time :
    (∀ (s : ReactorState) (tok : Nat) (rest : List Nat),
        lookupL tok s.event_listeners = none →
        dispatchBatch (tok :: rest) s = dispatchBatch rest s)
    ∧ dispatchBatch [1, 2]
        {reactor_new 0 with
          event_listeners := [(1, [Op.remove_event_listener 2]), (2, [Op.tag 5])]} =
      {reactor_new 0 with
        event_listeners := [(1, [Op.remove_event_listener 2])],
        trace := [TEv.io 1]} := by
  constructor
  · intro s tok rest h
    simp [dispatchBatch, h]
  · rfl

/-- Witness for C6's skip rule at a concrete token with no listener. -/
theorem C6_dispatch_lookup_witness :
    dispatchBatch [7, 8] (reactor_new 0) = dispatchBatch [8] (reactor_new 0) :=
  C6_dispatch_lookup_at_dispatch_time.1 (reactor_new 0) 7 [8] rfl

/-! ## C4: quit takes effect at checkpoints -/

/-- C4: `quit` only sets a flag, so it never preempts the remainder of the
callback body that called it (first conjunct); a set quit flag stops the
loop at the top of the next iteration, so no further callbacks run (second
conjunct); when the fired timer's callback set the flag, the ready batch
of the same pass is not dispatched (third conjunct); and when an event
callback set the flag, the remaining events of the batch are dropped
(fourth conjunct). -/
theorem C4_quit_checkpoints :
    (∀ (p : List Op) (s : ReactorState), execProg (Op.quit :: p) s = execProg p (quit s))
    ∧ (∀ (e : EnvIn) (rest : List EnvIn) (s : ReactorState), s.quit = true →
        run_internal (e :: rest) s = s)
    ∧ (∀ (e : EnvIn) (s : ReactorState),
        (timerPhase (calculate_duration s) {s with now := s.now + e.elapsed}).quit = true →
        oneIter e s = timerPhase (calculate_duration s) {s with now := s.now + e.elapsed})
    ∧ (∀ (s : ReactorState) (tok : Nat) (rest : List Nat) (p : List Op),
        lookupL tok s.event_listeners = some p →
        (execProg p {s with trace := s.trace ++ [TEv.io tok]}).quit = true →
        dispatchBatch (tok :: rest) s = execProg p {s with trace := s.trace ++ [TEv.io tok]}) := by
  refine ⟨?_, ?_, ?_, ?_⟩
  · intro p s; rfl
  · intro e rest s h; simp [run_internal, h]
  · intro e s h; simp [oneIter, h]
  · intro s tok rest p hl hq; simp [dispatchBatch, hl, hq]

/-- Witness for C4 at concrete states: a quitting timer callback skips the
batch; a quitting event callback drops the rest of its batch; a set flag
stops the loop. -/
theorem C4_quit_checkpoints_witness :
    execProg [Op.quit, Op.tag 3] (reactor_new 0) = execProg [Op.tag 3] (quit (reactor_new 0))
    ∧ run_internal [⟨0, []⟩] (quit (reactor_new 0)) = quit (reactor_new 0)
    ∧ oneIter ⟨0, [4]⟩ {reactor_new 0 with timeout_listeners := [(0, TimerCb.user [Op.quit])]}
        = timerPhase
            (calculate_duration
              {reactor_new 0 with timeout_listeners := [(0, TimerCb.user [Op.quit])]})
            {reactor_new 0 with timeout_listeners := [(0, TimerCb.user [Op.quit])], now := 0 + 0}
    ∧ dispatchBatch [3, 9] {reactor_new 0 with event_listeners := [(3, [Op.quit])]}
        = execProg [Op.quit]
            {reactor_new 0 with event_listeners := [(3, [Op.quit])], trace := [TEv.io 3]} :=
  ⟨C4_quit_checkpoints.1 [Op.tag 3] (reactor_new 0),
   C4_quit_checkpoints.2.1 ⟨0, []⟩ [] (quit (reactor_new 0)) rfl,
   C4_quit_checkpoints.2.2.1 ⟨0, [4]⟩
     {reactor_new 0 with timeout_listeners := [(0, TimerCb.user [Op.quit])]} rfl,
   C4_quit_checkpoints.2.2.2 {reactor_new 0 with event_listeners := [(3, [Op.quit])]}
     3 [9] [Op.quit] rfl rfl⟩

/-! ## C1: specification of calculate_duration -/

theorem get?_append_cons {α : Type} (x : α) (post : List α) : ∀ (pre : List α),
    (pre ++ x :: post)[pre.length]? = some x := by
  intro pre
  induction pre with
  | nil => simp
  | cons hd tl ih => simpa using ih

theorem eraseIdx_append_cons {α : Type} (x : α) (post : List α) : ∀ (pre : List α),
    (pre ++ x :: post).eraseIdx pre.length = pre ++ post := by
  intro pre
  induction pre with
  | nil => rfl
  | cons hd tl ih => simpa [List.eraseIdx] using ih

/-- The running scan of `calculate_duration` either keeps the incoming
accumulator (when nothing in the remaining list beats it strictly) or
returns the first entry of the remaining list whose clamped wait is
strictly below the accumulator and minimal among what follows. -/
theorem calc_loop_some (now : Nat) : ∀ (l : List (Nat × TimerCb)) (cidx c0 f0 i0 : Nat),
    (calc_loop now l cidx ⟨some c0, some f0, i0⟩ = ⟨some c0, some f0, i0⟩
      ∧ ∀ x ∈ l, c0 ≤ clampDur now x.1)
    ∨ (∃ pre fa cb post, l = pre ++ (fa, cb) :: post
        ∧ calc_loop now l cidx ⟨some c0, some f0, i0⟩ =
            ⟨some (clampDur now fa), some fa, cidx + pre.length⟩
        ∧ clampDur now fa < c0
        ∧ (∀ y ∈ pre, clampDur now fa < clampDur now y.1)
        ∧ (∀ z ∈ post, clampDur now fa ≤ clampDur now z.1)) := by
  intro l
  induction l with
  | nil =>
    intro cidx c0 f0 i0
    left
    exact ⟨rfl, by simp⟩
  | cons hd rest ih =>
    intro cidx c0 f0 i0
    obtain ⟨fa, cb⟩ := hd
    by_cases hlt : clampDur now fa < c0
    · have hstep : calc_loop now ((fa, cb) :: rest) cidx ⟨some c0, some f0, i0⟩ =
          calc_loop now rest (cidx + 1) ⟨some (clampDur now fa), some fa, cidx⟩ := by
        simp [calc_loop, hlt]
      rcases ih (cidx + 1) (clampDur now fa) fa cidx with ⟨hres, hall⟩ | hrep
      · right
        refine ⟨[], fa, cb, rest, by simp, ?_, hlt, by simp, hall⟩
        rw [hstep, hres]
        simp
      · obtain ⟨pre', fa', cb', post', hdec, hres, hlt', hpre', hpost'⟩ := hrep
        right
        refine ⟨(fa, cb) :: pre', fa', cb', post', by simp [hdec], ?_, ?_, ?_, hpost'⟩
        · rw [hstep, hres]
          congr 1
          simp
          omega
        · omega
        · intro y hy
          rcases List.mem_cons.mp hy with h | h
          · subst h
            show clampDur now fa' < clampDur now fa
            omega
          · exact hpre' y h
    · have hstep : calc_loop now ((fa, cb) :: rest) cidx ⟨some c0, some f0, i0⟩ =
          calc_loop now rest (cidx + 1) ⟨some c0, some f0, i0⟩ := by
        simp [calc_loop, hlt]
      rcases ih (cidx + 1) c0 f0 i0 with ⟨hres, hall⟩ | hrep
      · left
        refine ⟨by rw [hstep, hres], ?_⟩
        intro x hx
        rcases List.mem_cons.mp hx with h | h
        · subst h
          show c0 ≤ clampDur now fa
          omega
        · exact hall x h
      · obtain ⟨pre', fa', cb', post', hdec, hres, hlt', hpre', hpost'⟩ := hrep
        right
        refine ⟨(fa, cb) :: pre', fa', cb', post', by simp [hdec], ?_, hlt', ?_, hpost'⟩
        · rw [hstep, hres]
          congr 1
          simp
          omega
        · intro y hy
          rcases List.mem_cons.mp hy with h | h
          · subst h
            show clampDur now fa' < clampDur now fa
            omega
          · exact hpre' y h

/-- Full input-output specification of `calculate_duration`: on the empty
timer list it is the no-timer result; on a nonempty list it returns the
first entry attaining the minimal clamped wait, with that entry's clamped
wait, absolute fire time and position. -/
theorem calculate_duration_spec (s : ReactorState) :
    (s.timeout_listeners = [] → calculate_duration s = ⟨none, none, 0⟩)
    ∧ (∀ fa0 cb0 rest0, s.timeout_listeners = (fa0, cb0) :: rest0 →
        ∃ pre fa cb post,
          s.timeout_listeners = pre ++ (fa, cb) :: post
          ∧ calculate_duration s = ⟨some (clampDur s.now fa), some fa, pre.length⟩
          ∧ (∀ y ∈ pre, clampDur s.now fa < clampDur s.now y.1)
          ∧ (∀ z ∈ post, clampDur s.now fa ≤ clampDur s.now z.1)) := by
  constructor
  · intro h
    simp [calculate_duration, h, calc_loop]
  · intro fa0 cb0 rest0 h
    have hstep : calculate_duration s =
        calc_loop s.now rest0 1 ⟨some (clampDur s.now fa0), some fa0, 0⟩ := by
      simp [calculate_duration, h, calc_loop]
    rcases calc_loop_some s.now rest0 1 (clampDur s.now fa0) fa0 0 with ⟨hres, hall⟩ | hrep
    · refine ⟨[], fa0, cb0, rest0, by simp [h], ?_, by simp, hall⟩
      rw [hstep, hres]
      rfl
    · obtain ⟨pre', fa', cb', post', hdec, hres, hlt', hpre', hpost'⟩ := hrep
      refine ⟨(fa0, cb0) :: pre', fa', cb', post', by simp [h, hdec], ?_, ?_, hpost'⟩
      · rw [hstep, hres]
        congr 1
        simp
        omega
      · intro y hy
        rcases List.mem_cons.mp hy with h2 | h2
        · subst h2
          show clampDur s.now fa' < clampDur s.now fa0
          omega
        · exact hpre' y h2

/-- C1 counterexample: with two overdue timers whose fire times are 5 and 3
at current instant 10, `calculate_duration` returns the entry with
`fire_at` 5 at position 0, even though the smallest `fire_at` in the list
is 3 — both clamp to a zero wait and the scan keeps the first zero. -/
theorem C1_counterexample :
    calculate_duration
        {reactor_new 10 with timeout_listeners := [(5, TimerCb.user []), (3, TimerCb.user [])]}
      = ⟨some 0, some 5, 0⟩
    ∧ ({reactor_new 10 with
          timeout_listeners := [(5, TimerCb.user []), (3, TimerCb.user [])]} :
        ReactorState).timeout_listeners.map Prod.fst = [5, 3]
    ∧ (3 : Nat) < 5 :=
  ⟨rfl, rfl, by omega⟩

/-- C1 (amended): applied to an empty timer list, `calculate_duration`
returns the no-timer result (duration and `fire_at` both absent); applied
to a nonempty list it returns the first entry attaining the minimal
clamped non-negative wait `clampDur` (which equals the entry of smallest
`fire_at` whenever no entry is overdue, but is the first overdue entry
when several are), together with that clamped wait (exactly zero when
`fire_at` is not after the current instant), that entry's absolute
`fire_at`, and its list position. -/
theorem C1_calculate_duration_amended (s : ReactorState) :
    (s.timeout_listeners = [] → calculate_duration s = ⟨none, none, 0⟩)
    ∧ (∀ fa0 cb0 rest0, s.timeout_listeners = (fa0, cb0) :: rest0 →
        ∃ pre fa cb post,
          s.timeout_listeners = pre ++ (fa, cb) :: post
          ∧ calculate_duration s = ⟨some (clampDur s.now fa), some fa, pre.length⟩
          ∧ (∀ y ∈ pre, clampDur s.now fa < clampDur s.now y.1)
          ∧ (∀ z ∈ post, clampDur s.now fa ≤ clampDur s.now z.1))
    ∧ (∀ fa, clampDur s.now fa = 0 ↔ fa ≤ s.now) := by
  refine ⟨(calculate_duration_spec s).1, (calculate_duration_spec s).2, ?_⟩
  intro fa
  unfold clampDur
  by_cases h : s.now < fa <;> simp [h] <;> omega

/-- Witness for C1 (amended) at concrete states: the empty reactor and a
two-entry timer list where the second entry is nearest. -/
theorem C1_calculate_duration_amended_witness :
    calculate_duration (reactor_new 0) = ⟨none, none, 0⟩
    ∧ (∃ pre fa cb post,
        ({reactor_new 0 with
            timeout_listeners := [(9, TimerCb.user []), (4, TimerCb.user [])]} :
          ReactorState).timeout_listeners = pre ++ (fa, cb) :: post
        ∧ calculate_duration
            {reactor_new 0 with
              timeout_listeners := [(9, TimerCb.user []), (4, TimerCb.user [])]} =
            ⟨some (clampDur 0 fa), some fa, pre.length⟩
        ∧ (∀ y ∈ pre, clampDur 0 fa < clampDur 0 y.1)
        ∧ (∀ z ∈ post, clampDur 0 fa ≤ clampDur 0 z.1)) :=
  ⟨(C1_calculate_duration_amended (reactor_new 0)).1 rfl,
   (C1_calculate_duration_amended
      {reactor_new 0 with
        timeout_listeners := [(9, TimerCb.user []), (4, TimerCb.user [])]}).2.1
     9 (TimerCb.user []) [(4, TimerCb.user [])] rfl⟩

/-! ## Trace lemmas: the only source of `.timer` events is `fireTimer` -/

theorem timerFireAts_append (a b : List TEv) :
    timerFireAts (a ++ b) = timerFireAts a ++ timerFireAts b := by
  induction a with
  | nil => rfl
  | cons hd tl ih => cases hd <;> simp [timerFireAts, ih]

theorem execOp_trace_timers (s : ReactorState) (op : Op) :
    timersIn (execOp s op).trace = timersIn s.trace := by
  cases op <;>
    simp [execOp, quit, set_event_listener, remove_event_listener, set_timeout,
      set_interval, reschedule_interval, cancel, timersIn, timerFireAts_append, timerFireAts]

theorem execProg_trace_timers (p : List Op) : ∀ s : ReactorState,
    timersIn (execProg p s).trace = timersIn s.trace := by
  induction p with
  | nil => intro s; rfl
  | cons op rest ih =>
    intro s
    show timersIn (execProg rest (execOp s op)).trace = _
    rw [ih, execOp_trace_timers]

theorem runTimerCb_trace_timers (cb : TimerCb) (s : ReactorState) :
    timersIn (runTimerCb cb s).trace = timersIn s.trace := by
  cases cb with
  | user p => exact execProg_trace_timers p s
  | interval d hid p =>
    by_cases h : is_cancelled hid s = true
    · simp [runTimerCb, h]
    · rw [show runTimerCb (TimerCb.interval d hid p) s =
          execProg p (reschedule_interval d hid p s) from by simp [runTimerCb, h]]
      rw [execProg_trace_timers]
      rfl

theorem fireTimer_trace_timers (idx fa : Nat) (s : ReactorState) :
    timersIn (fireTimer idx fa s).trace ≤ timersIn s.trace + 1 := by
  rcases hget : s.timeout_listeners[idx]? with _ | ⟨fa', cb⟩
  · simp [fireTimer, hget]
  · rw [show fireTimer idx fa s = runTimerCb cb
        {s with timeout_listeners := s.timeout_listeners.eraseIdx idx,
                trace := s.trace ++ [TEv.timer fa]} from by simp [fireTimer, hget]]
    rw [runTimerCb_trace_timers]
    simp [timersIn, timerFireAts_append, timerFireAts]

theorem dispatchBatch_trace_timers (batch : List Nat) : ∀ s : ReactorState,
    timersIn (dispatchBatch batch s).trace = timersIn s.trace := by
  induction batch with
  | nil => intro s; rfl
  | cons tok rest ih =>
    intro s
    rcases hl : lookupL tok s.event_listeners with _ | p
    · rw [show dispatchBatch (tok :: rest) s = dispatchBatch rest s from by
        simp [dispatchBatch, hl]]
      exact ih s
    · by_cases hq : (execProg p {s with trace := s.trace ++ [TEv.io tok]}).quit = true
      · rw [show dispatchBatch (tok :: rest) s =
            execProg p {s with trace := s.trace ++ [TEv.io tok]} from by
          simp [dispatchBatch, hl, hq]]
        rw [execProg_trace_timers]
        simp [timersIn, timerFireAts_append, timerFireAts]
      · rw [show dispatchBatch (tok :: rest) s =
            dispatchBatch rest (execProg p {s with trace := s.trace ++ [TEv.io tok]}) from by
          simp [dispatchBatch, hl, hq]]
        rw [ih, execProg_trace_timers]
        simp [timersIn, timerFireAts_append, timerFireAts]

theorem timerPhase_trace_timers (r : CalculateDurationResult) (s : ReactorState) :
    timersIn (timerPhase r s).trace ≤ timersIn s.trace + 1 := by
  rcases h : r.fire_at with _ | fa
  · simp [timerPhase, h]
  · by_cases hfa : fa ≤ s.now
    · rw [show timerPhase r s = fireTimer r.idx fa s from by simp [timerPhase, h, hfa]]
      exact fireTimer_trace_timers r.idx fa s
    · simp [timerPhase, h, hfa]

theorem oneIter_trace_timers (e : EnvIn) (s : ReactorState) :
    timersIn (oneIter e s).trace ≤ timersIn s.trace + 1 := by
  by_cases hq : (timerPhase (calculate_duration s) {s with now := s.now + e.elapsed}).quit = true
  · rw [show oneIter e s =
        timerPhase (calculate_duration s) {s with now := s.now + e.elapsed} from by
      simp [oneIter, hq]]
    exact timerPhase_trace_timers _ _
  · rw [show oneIter e s =
        dispatchBatch e.batch
          (timerPhase (calculate_duration s) {s with now := s.now + e.elapsed}) from by
      simp [oneIter, hq]]
    rw [dispatchBatch_trace_timers]
    exact timerPhase_trace_timers _ _

/-! ## Inert callbacks and no-listener dispatch -/

theorem dispatchBatch_no_listeners (batch : List Nat) : ∀ s : ReactorState,
    s.event_listeners = [] → dispatchBatch batch s = s := by
  induction batch with
  | nil => intro s _; rfl
  | cons tok rest ih =>
    intro s h
    rw [show dispatchBatch (tok :: rest) s = dispatchBatch rest s from by
      simp [dispatchBatch, h, lookupL]]
    exact ih s h

theorem inert_exec (p : List Op) : ∀ s : ReactorState, inertProg p = true →
    ∃ t, execProg p s = {s with trace := s.trace ++ t} ∧ timerFireAts t = [] := by
  induction p with
  | nil =>
    intro s _
    refine ⟨[], ?_, rfl⟩
    show s = {s with trace := s.trace ++ []}
    simp
  | cons op rest ih =>
    intro s hin
    cases op with
    | tag n =>
      obtain ⟨t, ht, htt⟩ := ih {s with trace := s.trace ++ [TEv.tag n]}
        (by simpa [inertProg] using hin)
      refine ⟨TEv.tag n :: t, ?_, ?_⟩
      · show execProg rest (execOp s (Op.tag n)) = _
        rw [show execOp s (Op.tag n) = {s with trace := s.trace ++ [TEv.tag n]} from rfl, ht]
        simp
      · simpa [timerFireAts] using htt
    | quit => simp [inertProg] at hin
    | set_event_listener tok p2 => simp [inertProg] at hin
    | remove_event_listener tok => simp [inertProg] at hin
    | set_timeout d p2 => simp [inertProg] at hin
    | set_interval d p2 => simp [inertProg] at hin
    | cancel hid => simp [inertProg] at hin

theorem inertTimers_mem {s : ReactorState} {x : Nat × TimerCb}
    (h : inertTimers s = true) (hx : x ∈ s.timeout_listeners) : inertCb x.2 = true := by
  simp only [inertTimers, List.all_eq_true] at h
  exact h x hx

/-- With no listeners and only inert timer callbacks, one loop iteration
removes exactly the entry selected by `calculate_duration` when it has
elapsed, and leaves the timer list untouched otherwise. -/
theorem oneIter_timers_inert (e : EnvIn) (s : ReactorState)
    (hl : s.event_listeners = []) (hin : inertTimers s = true) :
    (oneIter e s).timeout_listeners =
      match (calculate_duration s).fire_at with
      | some fa =>
        if fa ≤ s.now + e.elapsed then
          s.timeout_listeners.eraseIdx (calculate_duration s).idx
        else s.timeout_listeners
      | none => s.timeout_listeners := by
  obtain ⟨q, tk, el, tl, fl, hd0, nw, tr⟩ := s
  dsimp only at hl hin ⊢
  subst hl
  cases tl with
  | nil =>
    have hd1 : dispatchBatch e.batch ⟨q, tk, [], [], fl, hd0, nw + e.elapsed, tr⟩ =
        ⟨q, tk, [], [], fl, hd0, nw + e.elapsed, tr⟩ :=
      dispatchBatch_no_listeners _ _ rfl
    simp [oneIter, calculate_duration, calc_loop, timerPhase, hd1]
  | cons hd rest0 =>
    obtain ⟨fa0, cb0⟩ := hd
    obtain ⟨pre, fa, cb, post, hdec, hcd, hpre, hpost⟩ :=
      (calculate_duration_spec ⟨q, tk, [], (fa0, cb0) :: rest0, fl, hd0, nw, tr⟩).2
        fa0 cb0 rest0 rfl
    dsimp only at hdec hcd
    rw [hcd]
    by_cases hfa : fa ≤ nw + e.elapsed
    · have hget : ((fa0, cb0) :: rest0)[pre.length]? = some (fa, cb) := by
        rw [hdec]
        exact get?_append_cons (fa, cb) post pre
      have hmem : (fa, cb) ∈ (fa0, cb0) :: rest0 := by
        rw [hdec]
        simp
      have hcbin : inertCb cb = true := inertTimers_mem hin hmem
      cases cb with
      | interval d hid p => simp [inertCb] at hcbin
      | user p =>
        obtain ⟨t, ht, -⟩ := inert_exec p
          ⟨q, tk, [], ((fa0, cb0) :: rest0).eraseIdx pre.length, fl, hd0,
            nw + e.elapsed, tr ++ [TEv.timer fa]⟩ hcbin
        have htp : timerPhase
            (calculate_duration ⟨q, tk, [], (fa0, cb0) :: rest0, fl, hd0, nw, tr⟩)
            ⟨q, tk, [], (fa0, cb0) :: rest0, fl, hd0, nw + e.elapsed, tr⟩ =
            execProg p ⟨q, tk, [], ((fa0, cb0) :: rest0).eraseIdx pre.length, fl, hd0,
              nw + e.elapsed, tr ++ [TEv.timer fa]⟩ := by
          rw [hcd]
          simp [timerPhase, hfa, fireTimer, hget, runTimerCb]
        have hone : oneIter e ⟨q, tk, [], (fa0, cb0) :: rest0, fl, hd0, nw, tr⟩ =
            execProg p ⟨q, tk, [], ((fa0, cb0) :: rest0).eraseIdx pre.length, fl, hd0,
              nw + e.elapsed, tr ++ [TEv.timer fa]⟩ := by
          show (if (timerPhase
                  (calculate_duration ⟨q, tk, [], (fa0, cb0) :: rest0, fl, hd0, nw, tr⟩)
                  ⟨q, tk, [], (fa0, cb0) :: rest0, fl, hd0, nw + e.elapsed, tr⟩).quit = true
                then timerPhase
                  (calculate_duration ⟨q, tk, [], (fa0, cb0) :: rest0, fl, hd0, nw, tr⟩)
                  ⟨q, tk, [], (fa0, cb0) :: rest0, fl, hd0, nw + e.elapsed, tr⟩
                else dispatchBatch e.batch
                  (timerPhase
                    (calculate_duration ⟨q, tk, [], (fa0, cb0) :: rest0, fl, hd0, nw, tr⟩)
                    ⟨q, tk, [], (fa0, cb0) :: rest0, fl, hd0, nw + e.elapsed, tr⟩)) = _
          rw [htp, dispatchBatch_no_listeners e.batch _ (by rw [ht])]
          simp
        rw [hone, ht]
        simp [hfa]
    · have htp : timerPhase
          (calculate_duration ⟨q, tk, [], (fa0, cb0) :: rest0, fl, hd0, nw, tr⟩)
          ⟨q, tk, [], (fa0, cb0) :: rest0, fl, hd0, nw + e.elapsed, tr⟩ =
          ⟨q, tk, [], (fa0, cb0) :: rest0, fl, hd0, nw + e.elapsed, tr⟩ := by
        rw [hcd]
        simp [timerPhase, hfa]
      have hone : oneIter e ⟨q, tk, [], (fa0, cb0) :: rest0, fl, hd0, nw, tr⟩ =
          ⟨q, tk, [], (fa0, cb0) :: rest0, fl, hd0, nw + e.elapsed, tr⟩ := by
        show (if (timerPhase
                (calculate_duration ⟨q, tk, [], (fa0, cb0) :: rest0, fl, hd0, nw, tr⟩)
                ⟨q, tk, [], (fa0, cb0) :: rest0, fl, hd0, nw + e.elapsed, tr⟩).quit = true
              then timerPhase
                (calculate_duration ⟨q, tk, [], (fa0, cb0) :: rest0, fl, hd0, nw, tr⟩)
                ⟨q, tk, [], (fa0, cb0) :: rest0, fl, hd0, nw + e.elapsed, tr⟩
              else dispatchBatch e.batch
                (timerPhase
                  (calculate_duration ⟨q, tk, [], (fa0, cb0) :: rest0, fl, hd0, nw, tr⟩)
                  ⟨q, tk, [], (fa0, cb0) :: rest0, fl, hd0, nw + e.elapsed, tr⟩)) = _
        rw [htp, dispatchBatch_no_listeners e.batch _ rfl]
        simp
      rw [hone]
      simp [hfa]

/-- C10: in one run-loop iteration at most one timer invocation is
recorded (first conjunct); a fired timer entry is removed from the timer
list before its callback runs, which executes on the already-shrunk list
(second conjunct); and with inert callbacks exactly the entry selected by
`calculate_duration` is removed when elapsed, so when several timers are
overdue the others stay queued for later iterations (third conjunct). -/
theorem C10_single_timer_per_iteration :
    (∀ (e : EnvIn) (s : ReactorState),
        timersIn (oneIter e s).trace ≤ timersIn s.trace + 1)
    ∧ (∀ (idx fa : Nat) (cb : TimerCb) (s : ReactorState),
        s.timeout_listeners[idx]? = some (fa, cb) →
        fireTimer idx fa s =
          runTimerCb cb
            {s with timeout_listeners := s.timeout_listeners.eraseIdx idx,
                    trace := s.trace ++ [TEv.timer fa]})
    ∧ (∀ (e : EnvIn) (s : ReactorState),
        s.event_listeners = [] → inertTimers s = true →
        (oneIter e s).timeout_listeners =
          match (calculate_duration s).fire_at with
          | some fa =>
            if fa ≤ s.now + e.elapsed then
              s.timeout_listeners.eraseIdx (calculate_duration s).idx
            else s.timeout_listeners
          | none => s.timeout_listeners) := by
  refine ⟨oneIter_trace_timers, ?_, oneIter_timers_inert⟩
  intro idx fa cb s hget
  simp [fireTimer, hget]

/-- Witness for C10: with two overdue timers (fire times 4 and 3 at
instant 5) one iteration removes only the selected entry and the other
remains queued; and a concrete fired entry is removed before its callback
runs. -/
theorem C10_single_timer_witness :
    (oneIter ⟨0, []⟩
        {reactor_new 5 with
          timeout_listeners :=
            [(4, TimerCb.user [Op.tag 1]), (3, TimerCb.user [Op.tag 2])]}).timeout_listeners
      = [(3, TimerCb.user [Op.tag 2])]
    ∧ fireTimer 0 4 {reactor_new 0 with timeout_listeners := [(4, TimerCb.user [Op.tag 1])]}
        = runTimerCb (TimerCb.user [Op.tag 1])
            {reactor_new 0 with timeout_listeners := [], trace := [TEv.timer 4]} :=
  ⟨C10_single_timer_per_iteration.2.2 ⟨0, []⟩
      {reactor_new 5 with
        timeout_listeners := [(4, TimerCb.user [Op.tag 1]), (3, TimerCb.user [Op.tag 2])]}
      rfl rfl,
   C10_single_timer_per_iteration.2.1 0 4 (TimerCb.user [Op.tag 1])
      {reactor_new 0 with timeout_listeners := [(4, TimerCb.user [Op.tag 1])]} rfl⟩

/-! ## C3: interval cancellation invariant -/

theorem countHid_append (hid : Nat) (a b : List (Nat × TimerCb)) :
    countHid hid (a ++ b) = countHid hid a + countHid hid b := by
  simp [countHid, List.filter_append]

theorem countHid_eraseIdx_le (hid : Nat) (l : List (Nat × TimerCb)) (i : Nat) :
    countHid hid (l.eraseIdx i) ≤ countHid hid l := by
  have hsub : List.Sublist (l.eraseIdx i) l := List.eraseIdx_sublist l i
  exact List.Sublist.length_le (List.Sublist.filter _ hsub)

theorem execOp_cancel_mono (hid : Nat) (op : Op) (s : ReactorState)
    (hc : is_cancelled hid s = true) (ht : hid < s.hid_ticker) :
    is_cancelled hid (execOp s op) = true
    ∧ hid < (execOp s op).hid_ticker
    ∧ countHid hid (execOp s op).timeout_listeners = countHid hid s.timeout_listeners := by
  cases op with
  | quit => exact ⟨hc, ht, rfl⟩
  | set_event_listener tok p => exact ⟨hc, ht, rfl⟩
  | remove_event_listener tok => exact ⟨hc, ht, rfl⟩
  | set_timeout d p =>
    refine ⟨hc, ht, ?_⟩
    simp [execOp, set_timeout, countHid_append, countHid, isIntervalOf]
  | set_interval d p =>
    have hne : s.hid_ticker ≠ hid := by omega
    refine ⟨?_, ?_, ?_⟩
    · show (lookupL hid (insertL s.hid_ticker false s.interval_flags)).getD false = true
      rw [lookupL_insertL_ne hid s.hid_ticker false s.interval_flags hne]
      exact hc
    · show hid < s.hid_ticker + 1
      omega
    · have hb : (s.hid_ticker == hid) = false := by simp [hne]
      simp [execOp, set_interval, reschedule_interval, set_timeout, countHid_append,
        countHid, isIntervalOf, hb]
  | cancel hid2 =>
    refine ⟨?_, ht, rfl⟩
    by_cases h : hid2 = hid
    · subst h
      show (lookupL hid2 (insertL hid2 true s.interval_flags)).getD false = true
      rw [lookupL_insertL_self]
      rfl
    · show (lookupL hid (insertL hid2 true s.interval_flags)).getD false = true
      rw [lookupL_insertL_ne hid hid2 true s.interval_flags h]
      exact hc
  | tag n => exact ⟨hc, ht, rfl⟩

theorem execProg_cancel_mono (hid : Nat) (p : List Op) : ∀ s : ReactorState,
    is_cancelled hid s = true → hid < s.hid_ticker →
    is_cancelled hid (execProg p s) = true
    ∧ hid < (execProg p s).hid_ticker
    ∧ countHid hid (execProg p s).timeout_listeners = countHid hid s.timeout_listeners := by
  induction p with
  | nil => intro s hc ht; exact ⟨hc, ht, rfl⟩
  | cons op rest ih =>
    intro s hc ht
    obtain ⟨h1, h2, h3⟩ := execOp_cancel_mono hid op s hc ht
    obtain ⟨g1, g2, g3⟩ := ih (execOp s op) h1 h2
    exact ⟨g1, g2, by rw [show execProg (op :: rest) s = execProg rest (execOp s op) from rfl,
      g3, h3]⟩

theorem runTimerCb_cancel_mono (hid : Nat) (cb : TimerCb) (s : ReactorState)
    (hc : is_cancelled hid s = true) (ht : hid < s.hid_ticker) :
    is_cancelled hid (runTimerCb cb s) = true
    ∧ hid < (runTimerCb cb s).hid_ticker
    ∧ countHid hid (runTimerCb cb s).timeout_listeners ≤ countHid hid s.timeout_listeners := by
  cases cb with
  | user p =>
    obtain ⟨g1, g2, g3⟩ := execProg_cancel_mono hid p s hc ht
    exact ⟨g1, g2, le_of_eq g3⟩
  | interval d hid2 p =>
    by_cases h2 : is_cancelled hid2 s = true
    · rw [show runTimerCb (TimerCb.interval d hid2 p) s = s from by simp [runTimerCb, h2]]
      exact ⟨hc, ht, le_refl _⟩
    · have hne : hid2 ≠ hid := by
        intro he
        subst he
        exact h2 hc
      rw [show runTimerCb (TimerCb.interval d hid2 p) s =
          execProg p (reschedule_interval d hid2 p s) from by simp [runTimerCb, h2]]
      have hc' : is_cancelled hid (reschedule_interval d hid2 p s) = true := hc
      have ht' : hid < (reschedule_interval d hid2 p s).hid_ticker := ht
      obtain ⟨g1, g2, g3⟩ := execProg_cancel_mono hid p _ hc' ht'
      refine ⟨g1, g2, ?_⟩
      rw [g3]
      have hb : (hid2 == hid) = false := by simp [hne]
      simp [reschedule_interval, set_timeout, countHid_append, countHid, isIntervalOf, hb]

theorem fireTimer_cancel_mono (hid idx fa : Nat) (s : ReactorState)
    (hc : is_cancelled hid s = true) (ht : hid < s.hid_ticker) :
    is_cancelled hid (fireTimer idx fa s) = true
    ∧ hid < (fireTimer idx fa s).hid_ticker
    ∧ countHid hid (fireTimer idx fa s).timeout_listeners ≤
        countHid hid s.timeout_listeners := by
  rcases hget : s.timeout_listeners[idx]? with _ | ⟨fa', cb⟩
  · rw [show fireTimer idx fa s = s from by simp [fireTimer, hget]]
    exact ⟨hc, ht, le_refl _⟩
  · rw [show fireTimer idx fa s = runTimerCb cb
        {s with timeout_listeners := s.timeout_listeners.eraseIdx idx,
                trace := s.trace ++ [TEv.timer fa]} from by simp [fireTimer, hget]]
    obtain ⟨g1, g2, g3⟩ := runTimerCb_cancel_mono hid cb
      {s with timeout_listeners := s.timeout_listeners.eraseIdx idx,
              trace := s.trace ++ [TEv.timer fa]} hc ht
    exact ⟨g1, g2, le_trans g3 (countHid_eraseIdx_le hid s.timeout_listeners idx)⟩

theorem dispatchBatch_cancel_mono (hid : Nat) (batch : List Nat) : ∀ s : ReactorState,
    is_cancelled hid s = true → hid < s.hid_ticker →
    is_cancelled hid (dispatchBatch batch s) = true
    ∧ hid < (dispatchBatch batch s).hid_ticker
    ∧ countHid hid (dispatchBatch batch s).timeout_listeners ≤
        countHid hid s.timeout_listeners := by
  induction batch with
  | nil => intro s hc ht; exact ⟨hc, ht, le_refl _⟩
  | cons tok rest ih =>
    intro s hc ht
    rcases hl : lookupL tok s.event_listeners with _ | p
    · rw [show dispatchBatch (tok :: rest) s = dispatchBatch rest s from by
        simp [dispatchBatch, hl]]
      exact ih s hc ht
    · have hc' : is_cancelled hid {s with trace := s.trace ++ [TEv.io tok]} = true := hc
      have ht' : hid < ({s with trace := s.trace ++ [TEv.io tok]} : ReactorState).hid_ticker := ht
      obtain ⟨g1, g2, g3⟩ :=
        execProg_cancel_mono hid p {s with trace := s.trace ++ [TEv.io tok]} hc' ht'
      by_cases hq : (execProg p {s with trace := s.trace ++ [TEv.io tok]}).quit = true
      · rw [show dispatchBatch (tok :: rest) s =
            execProg p {s with trace := s.trace ++ [TEv.io tok]} from by
          simp [dispatchBatch, hl, hq]]
        exact ⟨g1, g2, le_of_eq g3⟩
      · rw [show dispatchBatch (tok :: rest) s =
            dispatchBatch rest (execProg p {s with trace := s.trace ++ [TEv.io tok]}) from by
          simp [dispatchBatch, hl, hq]]
        obtain ⟨f1, f2, f3⟩ := ih _ g1 g2
        exact ⟨f1, f2, le_trans f3 (le_of_eq g3)⟩

theorem timerPhase_cancel_mono (hid : Nat) (r : CalculateDurationResult) (s : ReactorState)
    (hc : is_cancelled hid s = true) (ht : hid < s.hid_ticker) :
    is_cancelled hid (timerPhase r s) = true
    ∧ hid < (timerPhase r s).hid_ticker
    ∧ countHid hid (timerPhase r s).timeout_listeners ≤ countHid hid s.timeout_listeners := by
  rcases h : r.fire_at with _ | fa
  · rw [show timerPhase r s = s from by simp [timerPhase, h]]
    exact ⟨hc, ht, le_refl _⟩
  · by_cases hfa : fa ≤ s.now
    · rw [show timerPhase r s = fireTimer r.idx fa s from by simp [timerPhase, h, hfa]]
      exact fireTimer_cancel_mono hid r.idx fa s hc ht
    · rw [show timerPhase r s = s from by simp [timerPhase, h, hfa]]
      exact ⟨hc, ht, le_refl _⟩

theorem oneIter_cancel_mono (hid : Nat) (e : EnvIn) (s : ReactorState)
    (hc : is_cancelled hid s = true) (ht : hid < s.hid_ticker) :
    is_cancelled hid (oneIter e s) = true
    ∧ hid < (oneIter e s).hid_ticker
    ∧ countHid hid (oneIter e s).timeout_listeners ≤ countHid hid s.timeout_listeners := by
  have hc1 : is_cancelled hid ({s with now := s.now + e.elapsed} : ReactorState) = true := hc
  have ht1 : hid < ({s with now := s.now + e.elapsed} : ReactorState).hid_ticker := ht
  obtain ⟨g1, g2, g3⟩ :=
    timerPhase_cancel_mono hid (calculate_duration s) {s with now := s.now + e.elapsed} hc1 ht1
  by_cases hq : (timerPhase (calculate_duration s) {s with now := s.now + e.elapsed}).quit = true
  · rw [show oneIter e s =
        timerPhase (calculate_duration s) {s with now := s.now + e.elapsed} from by
      simp [oneIter, hq]]
    exact ⟨g1, g2, g3⟩
  · rw [show oneIter e s = dispatchBatch e.batch
        (timerPhase (calculate_duration s) {s with now := s.now + e.elapsed}) from by
      simp [oneIter, hq]]
    obtain ⟨f1, f2, f3⟩ := dispatchBatch_cancel_mono hid e.batch _ g1 g2
    exact ⟨f1, f2, le_trans f3 g3⟩

theorem run_internal_cancel_mono (hid : Nat) (envs : List EnvIn) : ∀ s : ReactorState,
    is_cancelled hid s = true → hid < s.hid_ticker →
    is_cancelled hid (run_internal envs s) = true
    ∧ hid < (run_internal envs s).hid_ticker
    ∧ countHid hid (run_internal envs s).timeout_listeners ≤
        countHid hid s.timeout_listeners := by
  induction envs with
  | nil => intro s hc ht; exact ⟨hc, ht, le_refl _⟩
  | cons e rest ih =>
    intro s hc ht
    by_cases hstop : (s.quit || is_empty s) = true
    · rw [show run_internal (e :: rest) s = s from by simp [run_internal, hstop]]
      exact ⟨hc, ht, le_refl _⟩
    · rw [show run_internal (e :: rest) s = run_internal rest (oneIter e s) from by
        simp only [run_internal, hstop]
        simp]
      obtain ⟨g1, g2, g3⟩ := oneIter_cancel_mono hid e s hc ht
      obtain ⟨f1, f2, f3⟩ := ih _ g1 g2
      exact ⟨f1, f2, le_trans f3 g3⟩

/-- C3: when an interval's wrapping one-shot timeout fires with the
handle's flag set, nothing happens — state unchanged, no reschedule, no
user callback (first conjunct); with the flag unset, the next occurrence
is registered strictly before the user callback body runs, which
therefore executes on a state already containing the new wrapping timeout
(second and third conjuncts); and once the flag is set, no run of the
loop ever increases the number of queued timer entries belonging to that
interval, and the flag stays set (fourth conjunct). -/
theorem C3_interval_reschedule_and_cancel :
    (∀ (d hid : Nat) (p : List Op) (s : ReactorState),
        is_cancelled hid s = true →
        runTimerCb (TimerCb.interval d hid p) s = s)
    ∧ (∀ (d hid : Nat) (p : List Op) (s : ReactorState),
        is_cancelled hid s = false →
        runTimerCb (TimerCb.interval d hid p) s =
          execProg p (reschedule_interval d hid p s))
    ∧ (∀ (d hid : Nat) (p : List Op) (s : ReactorState),
        (reschedule_interval d hid p s).timeout_listeners =
          s.timeout_listeners ++ [(s.now + d, TimerCb.interval d hid p)])
    ∧ (∀ (envs : List EnvIn) (hid : Nat) (s : ReactorState),
        is_cancelled hid s = true → hid < s.hid_ticker →
        countHid hid (run_internal envs s).timeout_listeners ≤
          countHid hid s.timeout_listeners
        ∧ is_cancelled hid (run_internal envs s) = true) := by
  refine ⟨?_, ?_, ?_, ?_⟩
  · intro d hid p s h
    simp [runTimerCb, h]
  · intro d hid p s h
    simp [runTimerCb, h]
  · intro d hid p s
    rfl
  · intro envs hid s hc ht
    obtain ⟨g1, g2, g3⟩ := run_internal_cancel_mono hid envs s hc ht
    exact ⟨g3, g1⟩

/-- Witness for C3 at concrete states: a cancelled interval entry firing
is a no-op; an uncancelled one reschedules before running its body; the
loop never grows a cancelled interval's entry count. -/
theorem C3_interval_witness :
    runTimerCb (TimerCb.interval 5 0 [Op.tag 7])
        ⟨false, 0, [], [], [(0, true)], 1, 0, []⟩ =
      ⟨false, 0, [], [], [(0, true)], 1, 0, []⟩
    ∧ runTimerCb (TimerCb.interval 5 0 [Op.tag 7])
        ⟨false, 0, [], [], [(0, false)], 1, 0, []⟩ =
      execProg [Op.tag 7]
        (reschedule_interval 5 0 [Op.tag 7] ⟨false, 0, [], [], [(0, false)], 1, 0, []⟩)
    ∧ (reschedule_interval 5 0 [Op.tag 7]
        ⟨false, 0, [], [], [(0, false)], 1, 0, []⟩).timeout_listeners =
      [] ++ [(0 + 5, TimerCb.interval 5 0 [Op.tag 7])]
    ∧ (countHid 0 (run_internal [⟨5, []⟩]
          ⟨false, 0, [], [(5, TimerCb.interval 5 0 [Op.tag 7])], [(0, true)], 1, 0,
            []⟩).timeout_listeners ≤
        countHid 0 [(5, TimerCb.interval 5 0 [Op.tag 7])]
      ∧ is_cancelled 0 (run_internal [⟨5, []⟩]
          ⟨false, 0, [], [(5, TimerCb.interval 5 0 [Op.tag 7])], [(0, true)], 1, 0,
            []⟩) = true) :=
  ⟨C3_interval_reschedule_and_cancel.1 5 0 [Op.tag 7] _ rfl,
   C3_interval_reschedule_and_cancel.2.1 5 0 [Op.tag 7] _ rfl,
   C3_interval_reschedule_and_cancel.2.2.1 5 0 [Op.tag 7] _,
   C3_interval_reschedule_and_cancel.2.2.2 [⟨5, []⟩] 0 _ rfl (by decide)⟩

/-! ## C2: timers fire in ascending fire_at order under a timely environment -/

theorem now_add_clamp (now fa : Nat) (h : now ≤ fa) : now + clampDur now fa = fa := by
  unfold clampDur
  by_cases h2 : now < fa <;> simp [h2] <;> omega

theorem clamp_le_imp (now a b : Nat) (ha : now ≤ a) (hb : now ≤ b)
    (h : clampDur now a ≤ clampDur now b) : a ≤ b := by
  unfold clampDur at h
  by_cases h1 : now < a <;> by_cases h2 : now < b <;> simp [h1, h2] at h <;> omega

/-- Under a timely environment, a reactor with no listeners and inert
timer callbacks appends to its trace a sequence of timer invocations whose
fire times are sorted and all at or after the starting instant. -/
theorem run_internal_sorted (envs : List EnvIn) : ∀ s : ReactorState,
    s.event_listeners = [] → inertTimers s = true →
    (∀ x ∈ s.timeout_listeners, s.now ≤ x.1) →
    timely envs s = true →
    ∃ t, (run_internal envs s).trace = s.trace ++ t
      ∧ List.Pairwise (· ≤ ·) (timerFireAts t)
      ∧ (∀ fa ∈ timerFireAts t, s.now ≤ fa) := by
  induction envs with
  | nil =>
    intro s _ _ _ _
    exact ⟨[], by simp [run_internal], by simp [timerFireAts], by simp [timerFireAts]⟩
  | cons e rest ih =>
    intro s hl hin hnow htm
    obtain ⟨q, tk, el, tl, fl, hd0, nw, tr⟩ := s
    dsimp only at hl hnow ⊢
    subst hl
    by_cases hstop : (q || is_empty ⟨q, tk, [], tl, fl, hd0, nw, tr⟩) = true
    · rw [show run_internal (e :: rest) ⟨q, tk, [], tl, fl, hd0, nw, tr⟩ =
          ⟨q, tk, [], tl, fl, hd0, nw, tr⟩ from by simp [run_internal, hstop]]
      exact ⟨[], by simp, by simp [timerFireAts], by simp [timerFireAts]⟩
    · cases tl with
      | nil => exact absurd (by simp [is_empty]) hstop
      | cons hd rest0 =>
        obtain ⟨fa0, cb0⟩ := hd
        obtain ⟨pre, fa, cb, post, hdec, hcd, hpre, hpost⟩ :=
          (calculate_duration_spec ⟨q, tk, [], (fa0, cb0) :: rest0, fl, hd0, nw, tr⟩).2
            fa0 cb0 rest0 rfl
        dsimp only at hdec hcd
        have hfa_mem : (fa, cb) ∈ (fa0, cb0) :: rest0 := by
          rw [hdec]
          simp
        have hfanow : nw ≤ fa := hnow (fa, cb) hfa_mem
        have htm2 : (e.batch.isEmpty &&
            (e.elapsed == (calculate_duration
              ⟨q, tk, [], (fa0, cb0) :: rest0, fl, hd0, nw, tr⟩).duration.getD 0) &&
            timely rest (oneIter e ⟨q, tk, [], (fa0, cb0) :: rest0, fl, hd0, nw, tr⟩)) =
            true := by
          rw [show timely (e :: rest) ⟨q, tk, [], (fa0, cb0) :: rest0, fl, hd0, nw, tr⟩ =
              (e.batch.isEmpty &&
                (e.elapsed == (calculate_duration
                  ⟨q, tk, [], (fa0, cb0) :: rest0, fl, hd0, nw, tr⟩).duration.getD 0) &&
                timely rest
                  (oneIter e ⟨q, tk, [], (fa0, cb0) :: rest0, fl, hd0, nw, tr⟩)) from by
            simp [timely, hstop]] at htm
          exact htm
        rw [hcd] at htm2
        simp only [Bool.and_eq_true, List.isEmpty_iff, beq_iff_eq, Option.getD_some] at htm2
        obtain ⟨⟨hb, he⟩, hrest⟩ := htm2
        have hnwfa : nw + e.elapsed = fa := by
          rw [he]
          exact now_add_clamp nw fa hfanow
        have hfa2 : fa ≤ nw + e.elapsed := by omega
        have hget : ((fa0, cb0) :: rest0)[pre.length]? = some (fa, cb) := by
          rw [hdec]
          exact get?_append_cons (fa, cb) post pre
        have hcb : inertCb cb = true := inertTimers_mem hin hfa_mem
        cases cb with
        | interval d hid p => simp [inertCb] at hcb
        | user p =>
          obtain ⟨t, ht, htno⟩ := inert_exec p
            ⟨q, tk, [], ((fa0, cb0) :: rest0).eraseIdx pre.length, fl, hd0,
              nw + e.elapsed, tr ++ [TEv.timer fa]⟩ hcb
          have htp : timerPhase
              (calculate_duration ⟨q, tk, [], (fa0, cb0) :: rest0, fl, hd0, nw, tr⟩)
              ⟨q, tk, [], (fa0, cb0) :: rest0, fl, hd0, nw + e.elapsed, tr⟩ =
              execProg p ⟨q, tk, [], ((fa0, cb0) :: rest0).eraseIdx pre.length, fl, hd0,
                nw + e.elapsed, tr ++ [TEv.timer fa]⟩ := by
            rw [hcd]
            simp [timerPhase, hfa2, fireTimer, hget, runTimerCb]
          have hone : oneIter e ⟨q, tk, [], (fa0, cb0) :: rest0, fl, hd0, nw, tr⟩ =
              ⟨q, tk, [], ((fa0, cb0) :: rest0).eraseIdx pre.length, fl, hd0,
                nw + e.elapsed, (tr ++ [TEv.timer fa]) ++ t⟩ := by
            show (if (timerPhase
                    (calculate_duration ⟨q, tk, [], (fa0, cb0) :: rest0, fl, hd0, nw, tr⟩)
                    ⟨q, tk, [], (fa0, cb0) :: rest0, fl, hd0, nw + e.elapsed, tr⟩).quit = true
                  then timerPhase
                    (calculate_duration ⟨q, tk, [], (fa0, cb0) :: rest0, fl, hd0, nw, tr⟩)
                    ⟨q, tk, [], (fa0, cb0) :: rest0, fl, hd0, nw + e.elapsed, tr⟩
                  else dispatchBatch e.batch
                    (timerPhase
                      (calculate_duration ⟨q, tk, [], (fa0, cb0) :: rest0, fl, hd0, nw, tr⟩)
                      ⟨q, tk, [], (fa0, cb0) :: rest0, fl, hd0, nw + e.elapsed, tr⟩)) = _
            rw [htp, ht, hb]
            simp [dispatchBatch]
          have her : ((fa0, cb0) :: rest0).eraseIdx pre.length = pre ++ post := by
            rw [hdec]
            exact eraseIdx_append_cons (fa, TimerCb.user p) post pre
          have hin3 : inertTimers ⟨q, tk, [], ((fa0, cb0) :: rest0).eraseIdx pre.length,
              fl, hd0, nw + e.elapsed, (tr ++ [TEv.timer fa]) ++ t⟩ = true := by
            simp only [inertTimers, List.all_eq_true] at hin ⊢
            intro x hx
            exact hin x (List.eraseIdx_subset _ _ hx)
          have hnow3 : ∀ x ∈ (((fa0, cb0) :: rest0).eraseIdx pre.length), nw + e.elapsed ≤ x.1 := by
            intro x hx
            rw [her] at hx
            rw [hnwfa]
            have hxin : x ∈ (fa0, cb0) :: rest0 := by
              rw [hdec]
              rcases List.mem_append.mp hx with h | h
              · exact List.mem_append.mpr (Or.inl h)
              · exact List.mem_append.mpr (Or.inr (List.mem_cons_of_mem _ h))
            rcases List.mem_append.mp hx with h | h
            · exact clamp_le_imp nw fa x.1 hfanow (hnow x hxin) (le_of_lt (hpre x h))
            · exact clamp_le_imp nw fa x.1 hfanow (hnow x hxin) (hpost x h)
          have hrest3 : timely rest ⟨q, tk, [], ((fa0, cb0) :: rest0).eraseIdx pre.length,
              fl, hd0, nw + e.elapsed, (tr ++ [TEv.timer fa]) ++ t⟩ = true := by
            rw [hone] at hrest
            exact hrest
          obtain ⟨t2, htr2, hpw2, hge2⟩ := ih
            ⟨q, tk, [], ((fa0, cb0) :: rest0).eraseIdx pre.length, fl, hd0,
              nw + e.elapsed, (tr ++ [TEv.timer fa]) ++ t⟩ rfl hin3 hnow3 hrest3
          refine ⟨TEv.timer fa :: (t ++ t2), ?_, ?_, ?_⟩
          · rw [show run_internal (e :: rest) ⟨q, tk, [], (fa0, cb0) :: rest0, fl, hd0, nw, tr⟩ =
                run_internal rest
                  (oneIter e ⟨q, tk, [], (fa0, cb0) :: rest0, fl, hd0, nw, tr⟩) from by
              simp [run_internal, hstop]]
            rw [hone, htr2]
            simp
          · have hts : timerFireAts (TEv.timer fa :: (t ++ t2)) = fa :: timerFireAts t2 := by
              simp [timerFireAts, timerFireAts_append, htno]
            rw [hts]
            refine List.pairwise_cons.mpr ⟨?_, hpw2⟩
            intro b hbm
            have h5 : nw + e.elapsed ≤ b := hge2 b hbm
            omega
          · intro x hx
            have hts : timerFireAts (TEv.timer fa :: (t ++ t2)) = fa :: timerFireAts t2 := by
              simp [timerFireAts, timerFireAts_append, htno]
            rw [hts] at hx
            rcases List.mem_cons.mp hx with h | h
            · omega
            · have h5 : nw + e.elapsed ≤ x := hge2 x h
              omega

/-- C2: under a timely environment (poll sleeps exactly the requested
wait, no I/O readiness), a reactor whose timers were all registered at or
after the current instant invokes their callbacks in ascending `fire_at`
order (first conjunct); in particular, with timers registered via
`set_timeout` at offsets 100 and 50 in that order, the 50 timer's callback
(`tag 2`) runs before the 100 timer's (`tag 1`) (second conjunct). -/
theorem C2_timers_fire_in_order :
    (∀ (envs : List EnvIn) (s : ReactorState),
        s.event_listeners = [] → inertTimers s = true →
        (∀ x ∈ s.timeout_listeners, s.now ≤ x.1) →
        timely envs s = true → s.trace = [] →
        List.Pairwise (· ≤ ·) (timerFireAts (run_internal envs s).trace))
    ∧ (run_internal [⟨50, []⟩, ⟨50, []⟩]
        (set_timeout 50 (TimerCb.user [Op.tag 2])
          (set_timeout 100 (TimerCb.user [Op.tag 1]) (reactor_new 0)))).trace =
      [TEv.timer 50, TEv.tag 2, TEv.timer 100, TEv.tag 1] := by
  constructor
  · intro envs s hl hin hnow htm htr
    obtain ⟨t, h1, h2, _⟩ := run_internal_sorted envs s hl hin hnow htm
    rw [h1, htr]
    simpa using h2
  · rfl

/-- Witness for C2's general conjunct at the concrete two-timer reactor
and its timely two-iteration environment. -/
theorem C2_timers_fire_in_order_witness :
    List.Pairwise (· ≤ ·) (timerFireAts (run_internal [⟨50, []⟩, ⟨50, []⟩]
      (set_timeout 50 (TimerCb.user [Op.tag 2])
        (set_timeout 100 (TimerCb.user [Op.tag 1]) (reactor_new 0)))).trace) :=
  C2_timers_fire_in_order.1 [⟨50, []⟩, ⟨50, []⟩]
    (set_timeout 50 (TimerCb.user [Op.tag 2])
      (set_timeout 100 (TimerCb.user [Op.tag 1]) (reactor_new 0)))
    rfl rfl (by intro x _; exact Nat.zero_le _) rfl rfl

/-! ## C8: the run(initializer) entry point (modelled from the spec) -/

/-- C8: `run` constructs a fresh reactor, executes the initializer exactly
once with mutable access before the first loop iteration, then runs the
loop (first conjunct, definitional); an initializer that only tags leaves
exactly one tag and the empty reactor stops at once, whatever the
environment, so the initializer body ran exactly once and nothing ran
after the loop stopped (second conjunct); end-to-end, an initializer that
registers a zero-delay timeout makes the loop fire that callback on the
first iteration and then reach the empty (stopped) state (third
conjunct). -/
theorem C8_run_initializer :
    (∀ (init : List Op) (envs : List EnvIn) (now0 : Nat),
        run init envs now0 = run_internal envs (execProg init (reactor_new now0)))
    ∧ (∀ (envs : List EnvIn) (now0 : Nat),
        run [Op.tag 9] envs now0 = {reactor_new now0 with trace := [TEv.tag 9]})
    ∧ run [Op.set_timeout 0 [Op.tag 1]] [⟨0, []⟩] 0 =
        {reactor_new 0 with trace := [TEv.timer 0, TEv.tag 1]}
    ∧ is_empty {reactor_new 0 with trace := [TEv.timer 0, TEv.tag 1]} = true := by
  refine ⟨fun _ _ _ => rfl, ?_, rfl, rfl⟩
  intro envs now0
  cases envs with
  | nil => rfl
  | cons e rest =>
    simp [run, run_internal, execProg, execOp, reactor_new, is_empty]
